import Mathlib

/-!
# Reference-counted string and thread primitives of the core library

Shallow embedding of `src/string.h` and `src/thread.h`.

* A `string` object is represented by its only field, `_string_record`, a `ptr`.
* Record storage is a `memory`: the function-local static `null_string` record, the blocks
  handed out by `memory_allocate`, and the log of `memory_deallocate` calls.
* Every operation returns an `outcome`: the value of the object's field and the memory, both
  when the operation completes and when it stops at an access the C++ language leaves
  undefined (null pointer, released storage, buffer overrun).
* `uint32` arithmetic is arithmetic on `Nat` modulo `uint32_range`.
-/

namespace core

/-- Number of values of the C++ type `uint32`. -/
def uint32_range : Nat := 4294967296

/-- A `string_record *`: null, the address of the static `null_string`, or the address of
the block number `a` handed out by `memory_allocate`. -/
inductive ptr where
  | null
  | null_string
  | heap (a : Nat)
deriving DecidableEq, Repr

/-- The struct `string::string_record`. `data` lists the bytes stored in the trailing
array, terminator included. -/
structure string_record where
  ref_count : Nat
  len : Nat
  data : List Nat
deriving DecidableEq, Repr

/-- Accesses at which an operation stops because C++ gives them no meaning. -/
inductive fault where
  | null_access
  | released_access
  | unmapped_access
  | buffer_overrun
  | dead_object
deriving DecidableEq, Repr

/-- Record storage. `heap[a]` is `some r` while block `a` is allocated and `none` once it
has been passed to `memory_deallocate`; `deallocated` lists the arguments of the
`memory_deallocate` calls, oldest first; `avail` is the number of bytes the allocator can
still hand out. -/
structure memory where
  null_string : string_record
  heap : List (Option string_record)
  deallocated : List ptr
  avail : Nat
deriving DecidableEq, Repr

/-- Result of an operation on a string object: the object's `_string_record` (or `()`),
the memory, and whether the operation completed (`ok`) or stopped at a fault (`fail`). -/
inductive outcome (α : Type) where
  | ok (a : α) (m : memory)
  | fail (f : fault) (a : α) (m : memory)
deriving DecidableEq, Repr

/-- Memory at the end of an operation, completed or not. -/
def outcome.mem {α : Type} : outcome α → memory
  | .ok _ m => m
  | .fail _ _ m => m

/-- Value at the end of an operation, completed or not. -/
def outcome.val {α : Type} : outcome α → α
  | .ok a _ => a
  | .fail _ a _ => a

/-- The static initialiser `{ 0x7FFFFFFF, 0, { 0 } }` of `null_string`. -/
def null_string_init : string_record := ⟨2147483647, 0, [0]⟩

/-- `sizeof(string_record)`: two `uint32` fields and `char data[1]`, padded to 4 bytes. -/
def sizeof_string_record : Nat := 12

/-- Memory at program start: the static record initialised, nothing allocated. -/
def memory.init (avail : Nat) : memory := ⟨null_string_init, [], [], avail⟩

/-- Dereference of a `string_record *` for reading. -/
def memory.read (m : memory) : ptr → Except fault string_record
  | .null => .error .null_access
  | .null_string => .ok m.null_string
  | .heap a =>
    match m.heap[a]? with
    | some (some r) => .ok r
    | some none => .error .released_access
    | none => .error .unmapped_access

/-- Store of a whole record through a `string_record *` that has been checked. -/
def memory.write (m : memory) (p : ptr) (r : string_record) : memory :=
  match p with
  | .null => m
  | .null_string => { m with null_string := r }
  | .heap a => { m with heap := m.heap.set a (some r) }

/-- Modelled from the spec: `memory_deallocate`, the allocator's release function, which is
not under `src/` ("deallocate(raw storage)"). The call is logged and the block is no longer
allocated. -/
def memory_deallocate (p : ptr) (m : memory) : memory :=
  match p with
  | .heap a => { m with heap := m.heap.set a none, deallocated := m.deallocated ++ [p] }
  | _ => { m with deallocated := m.deallocated ++ [p] }

/-- Memory with one more block, holding `r`, taken from `size` bytes of the allocator. -/
def memory.with_block (m : memory) (r : string_record) (size : Nat) : memory :=
  { m with heap := m.heap ++ [some r], avail := m.avail - size }

/-- Modelled from the spec: `memory_allocate`, the allocator's request function, which is
not under `src/` ("allocate(size) -> raw storage or failure"). A request the allocator can
satisfy returns a block that is not in use (here always a new block number, contents
zeroed); a request it cannot satisfy returns no storage, the null pointer. -/
def memory_allocate (size : Nat) (m : memory) : ptr × memory :=
  if size ≤ m.avail then
    (.heap m.heap.length, m.with_block ⟨0, 0, []⟩ size)
  else
    (.null, m)

/-- The statement `_string_record->ref_count++`. -/
def inc_ref (p : ptr) (m : memory) : outcome Unit :=
  match m.read p with
  | .error f => .fail f () m
  | .ok r => .ok () (m.write p { r with ref_count := (r.ref_count + 1) % uint32_range })

/-- Method `string::_dec_ref`:
`if(!--_string_record->ref_count && _string_record != _get_null_string_record())
memory_deallocate(_string_record);` -/
def _dec_ref (p : ptr) (m : memory) : outcome Unit :=
  match m.read p with
  | .error f => .fail f () m
  | .ok r =>
    let c := (r.ref_count + (uint32_range - 1)) % uint32_range
    let m1 := m.write p { r with ref_count := c }
    if c = 0 ∧ p ≠ ptr.null_string then .ok () (memory_deallocate p m1) else .ok () m1

/-- A `const char *` argument: storage of the caller outside the record heap, or the
`data` array of a record (what `c_str()` returns). -/
inductive buffer where
  | bytes (bs : List Nat)
  | record_data (p : ptr)
deriving DecidableEq, Repr

/-- The bytes `memcpy` reads from its source: the first `len` bytes of the buffer. -/
def read_bytes (m : memory) (src : buffer) (len : Nat) : Except fault (List Nat) :=
  match src with
  | .bytes bs => if len ≤ bs.length then .ok (bs.take len) else .error .buffer_overrun
  | .record_data p =>
    match m.read p with
    | .error f => .error f
    | .ok r => if len ≤ r.data.length then .ok (r.data.take len) else .error .buffer_overrun

/-- Number of bytes before the first zero byte of a list, if there is one. -/
def strlen_bytes : List Nat → Option Nat
  | [] => none
  | b :: bs => if b = 0 then some 0 else (strlen_bytes bs).map (· + 1)

/-- The C function `strlen` on a `const char *`. -/
def strlen (m : memory) (src : buffer) : Except fault Nat :=
  match src with
  | .bytes bs =>
    match strlen_bytes bs with
    | some n => .ok n
    | none => .error .buffer_overrun
  | .record_data p =>
    match m.read p with
    | .error f => .error f
    | .ok r =>
      match strlen_bytes r.data with
      | some n => .ok n
      | none => .error .buffer_overrun

namespace string

/-- Constructor `string()`. -/
def default_construct (m : memory) : outcome ptr :=
  match inc_ref ptr.null_string m with
  | .fail f _ m1 => .fail f ptr.null_string m1
  | .ok _ m1 => .ok ptr.null_string m1

/-- Destructor `~string()`. -/
def destroy (this : ptr) (m : memory) : outcome ptr :=
  match _dec_ref this m with
  | .fail f _ m1 => .fail f this m1
  | .ok _ m1 => .ok this m1

/-- Copy constructor `string(const string &the_string)`. -/
def copy_construct (the_string : ptr) (m : memory) : outcome ptr :=
  match inc_ref the_string m with
  | .fail f _ m1 => .fail f the_string m1
  | .ok _ m1 => .ok the_string m1

/-- Method `operator=(const string &the_string)`. The argument `the_string` is the field
of the right-hand side, which `_dec_ref` does not change even when both sides are the same
object. -/
def assign (this the_string : ptr) (m : memory) : outcome ptr :=
  match _dec_ref this m with
  | .fail f _ m1 => .fail f this m1
  | .ok _ m1 =>
    match inc_ref the_string m1 with
    | .fail f _ m2 => .fail f the_string m2
    | .ok _ m2 => .ok the_string m2

/-- Method `set(const char *string_data, uint32 len)`. -/
def set (this : ptr) (string_data : buffer) (len : Nat) (m : memory) : outcome ptr :=
  match _dec_ref this m with
  | .fail f _ m1 => .fail f this m1
  | .ok _ m1 =>
    match memory_allocate (sizeof_string_record + len) m1 with
    | (.null, m2) => .fail .null_access .null m2
    | (p, m2) =>
      let m3 := m2.write p ⟨1, len, []⟩
      match read_bytes m3 string_data len with
      | .error f => .fail f p m3
      | .ok bs => .ok p (m3.write p ⟨1, len, bs ++ [0]⟩)

/-- Method `set(const char *string_data)`: `uint32 len = strlen(string_data)`. -/
def set_cstr (this : ptr) (string_data : buffer) (m : memory) : outcome ptr :=
  match strlen m string_data with
  | .error f => .fail f this m
  | .ok n => set this string_data (n % uint32_range) m

/-- Constructor `string(const char *string_data, uint32 len)`. -/
def construct (string_data : buffer) (len : Nat) (m : memory) : outcome ptr :=
  match inc_ref ptr.null_string m with
  | .fail f _ m1 => .fail f ptr.null_string m1
  | .ok _ m1 => set ptr.null_string string_data len m1

/-- Constructor `string(const char *string_data)`. -/
def construct_cstr (string_data : buffer) (m : memory) : outcome ptr :=
  match inc_ref ptr.null_string m with
  | .fail f _ m1 => .fail f ptr.null_string m1
  | .ok _ m1 => set_cstr ptr.null_string string_data m1

/-- Method `len()`. -/
def len (this : ptr) (m : memory) : Except fault Nat :=
  match m.read this with
  | .error f => .error f
  | .ok r => .ok r.len

/-- Method `c_str()`: the address of the record's `data` array. -/
def c_str (this : ptr) : buffer := buffer.record_data this

/-- The `len() + 1` bytes stored at `c_str()`: the content and its terminator. -/
def c_str_bytes (this : ptr) (m : memory) : Except fault (List Nat) :=
  match len this m with
  | .error f => .error f
  | .ok n => read_bytes m (c_str this) (n + 1)

end string

/-! ## Programs over several string objects -/

/-- The string objects of a program, numbered in order of construction: `objs[i]` is
`some p` while object `i` is alive with `_string_record == p`, and `none` after its
destructor has run. -/
structure program_state where
  mem : memory
  objs : List (Option ptr)
deriving DecidableEq, Repr

/-- One operation of a program on its string objects. -/
inductive string_op where
  | default_construct
  | construct_cstr (string_data : buffer)
  | construct (string_data : buffer) (len : Nat)
  | copy_construct (src : Nat)
  | assign (dst src : Nat)
  | set_cstr (obj : Nat) (string_data : buffer)
  | set (obj : Nat) (string_data : buffer) (len : Nat)
  | destroy (obj : Nat)
deriving DecidableEq, Repr

/-- State after an operation, and the fault at which it stopped, if any. -/
structure run_result where
  state : program_state
  fault : Option fault
deriving DecidableEq, Repr

/-- The field of object `i`, when it is alive. -/
def program_state.field (st : program_state) (i : Nat) : Option ptr :=
  match st.objs[i]? with
  | some (some p) => some p
  | _ => none

/-- A constructor ran: on completion the program has one more object. -/
def constructed (st : program_state) (o : outcome ptr) : run_result :=
  match o with
  | .ok p m => ⟨⟨m, st.objs ++ [some p]⟩, none⟩
  | .fail f _ m => ⟨⟨m, st.objs⟩, some f⟩

/-- A method ran on object `i`: the object holds the field value the method left. -/
def updated (st : program_state) (i : Nat) (o : outcome ptr) : run_result :=
  match o with
  | .ok p m => ⟨⟨m, st.objs.set i (some p)⟩, none⟩
  | .fail f p m => ⟨⟨m, st.objs.set i (some p)⟩, some f⟩

/-- The destructor ran on object `i`: the object is no longer alive. -/
def destroyed (st : program_state) (i : Nat) (o : outcome ptr) : run_result :=
  match o with
  | .ok _ m => ⟨⟨m, st.objs.set i none⟩, none⟩
  | .fail f _ m => ⟨⟨m, st.objs.set i none⟩, some f⟩

/-- One operation. Naming an object that is not alive stops the program with
`dead_object` before any string code runs. -/
def step (op : string_op) (st : program_state) : run_result :=
  match op with
  | .default_construct => constructed st (string.default_construct st.mem)
  | .construct_cstr b => constructed st (string.construct_cstr b st.mem)
  | .construct b n => constructed st (string.construct b n st.mem)
  | .copy_construct src =>
    match st.field src with
    | some q => constructed st (string.copy_construct q st.mem)
    | none => ⟨st, some .dead_object⟩
  | .assign dst src =>
    match st.field dst, st.field src with
    | some p, some q => updated st dst (string.assign p q st.mem)
    | _, _ => ⟨st, some .dead_object⟩
  | .set_cstr i b =>
    match st.field i with
    | some p => updated st i (string.set_cstr p b st.mem)
    | none => ⟨st, some .dead_object⟩
  | .set i b n =>
    match st.field i with
    | some p => updated st i (string.set p b n st.mem)
    | none => ⟨st, some .dead_object⟩
  | .destroy i =>
    match st.field i with
    | some p => destroyed st i (string.destroy p st.mem)
    | none => ⟨st, some .dead_object⟩

/-- A sequence of operations, stopping at the first fault. -/
def run : List string_op → program_state → run_result
  | [], st => ⟨st, none⟩
  | op :: ops, st =>
    match (step op st).fault with
    | none => run ops (step op st).state
    | some f => ⟨(step op st).state, some f⟩

/-- Number of live string objects whose `_string_record` is `p`. -/
def live_count (st : program_state) (p : ptr) : Nat := st.objs.count (some p)

/-- Number of `memory_deallocate` calls made so far with argument `p`. -/
def release_count (st : program_state) (p : ptr) : Nat := st.mem.deallocated.count p

/-- The reference count of heap record `a` agrees with the program's objects: while some
live object is bound to the record, it is allocated, its `ref_count` is the number of
those objects and it has never been released; once no live object is bound to it, it is
released and has been passed to `memory_deallocate` exactly once. -/
def record_ok (st : program_state) (a : Nat) : Prop :=
  if live_count st (.heap a) = 0 then
    st.mem.read (.heap a) = .error .released_access ∧ release_count st (.heap a) = 1
  else
    (st.mem.read (.heap a)).map string_record.ref_count = .ok (live_count st (.heap a)) ∧
      release_count st (.heap a) = 0

/-- The field of a live object is the static record or a block that has been handed out. -/
def bound_ok (m : memory) : Option ptr → Prop
  | some .null => False
  | some (.heap a) => a < m.heap.length
  | _ => True

/-- Every record that has been handed out satisfies `record_ok`, and every live object is
bound to the static record or to such a record. -/
def counts_ok (st : program_state) : Prop :=
  (∀ a, a < st.mem.heap.length → record_ok st a) ∧ ∀ o ∈ st.objs, bound_ok st.mem o

/-- Operation `op` is one of copy construction, assignment and destruction, it names live
objects only, and it does not assign an object to itself while that object is the only
live one bound to its heap record. -/
def share_enabled (st : program_state) : string_op → Prop
  | .copy_construct src => (st.field src).isSome = true
  | .assign dst src =>
    (st.field dst).isSome = true ∧ (st.field src).isSome = true ∧
      (dst = src → ∀ a, st.field dst = some (.heap a) → live_count st (.heap a) ≠ 1)
  | .destroy i => (st.field i).isSome = true
  | _ => False

/-- Every operation of the sequence is `share_enabled` in the state it runs in. -/
def share_admissible : List string_op → program_state → Prop
  | [], _ => True
  | op :: ops, st => share_enabled st op ∧ share_admissible ops (step op st).state

/-- Number of copy constructions in a sequence of operations: the string values the
sequence adds to the program. -/
def copy_constructions : List string_op → Nat
  | [] => 0
  | .copy_construct _ :: ops => copy_constructions ops + 1
  | _ :: ops => copy_constructions ops

/-- The state after `string s("hi")` and `n - 1` copy constructions from `s`: one heap
record with `ref_count == n`, and `n` live string objects bound to it. -/
def shared_state (n : Nat) : program_state :=
  ⟨⟨null_string_init, [some ⟨n, 2, [104, 105, 0]⟩], [], 50⟩,
    List.replicate n (some (ptr.heap 0))⟩

/-! ## Thread -/

/-- The fields of class `thread` together with what its `thread_proc` holds: the local
variable `ret` once `run()` has returned, and the value `thread_proc` handed back to the
operating system. -/
structure thread where
  _return_value : Nat
  _thread_running : Bool
  ret : Option Nat
  exit_value : Option Nat
deriving DecidableEq, Repr

namespace thread

/-- Constructor `thread()`: `_thread_running = false`. `_return_value` is not initialised
and holds whatever `uninit` the storage held; the new thread does not exist yet. -/
def construct (uninit : Nat) : thread := ⟨uninit, false, none, none⟩

/-- Method `is_running()`. -/
def is_running (t : thread) : Bool := t._thread_running

/-- The statements of `start()` before the new thread exists: `_thread_running = true`. -/
def start_before_create : List (thread → thread) :=
  [fun t => { t with _thread_running := true }]

/-- The statements of `start()` after `pthread_create` / `CreateThread` has returned:
`_return_value = 0`. -/
def start_after_create : List (thread → thread) :=
  [fun t => { t with _return_value := 0 }]

/-- The statements of `thread_proc`, for a `run()` that returns `v`:
`ret = run(); _thread_running = false; return ret;`. -/
def thread_proc (v : Nat) : List (thread → thread) :=
  [fun t => { t with ret := some (v % uint32_range) },
   fun t => { t with _thread_running := false },
   fun t => { t with exit_value := t.ret }]

/-- Order in which two threads take their statements: `true` lets the first thread take
its next statement, `false` the second; a thread with no statement left, or an exhausted
schedule, lets the other one run. -/
def interleave {α : Type} : List Bool → List α → List α → List α
  | [], ps, cs => ps ++ cs
  | _ :: _, [], cs => cs
  | _ :: _, p :: ps, [] => p :: ps
  | true :: bs, p :: ps, c :: cs => p :: interleave bs ps (c :: cs)
  | false :: bs, p :: ps, c :: cs => c :: interleave bs (p :: ps) cs

/-- State once `start()` has returned and the thread function has returned `v`, under the
schedule `sched` of the caller of `start()` against the new thread. -/
def start_and_finish (sched : List Bool) (v : Nat) (t : thread) : thread :=
  (start_before_create ++ interleave sched start_after_create (thread_proc v)).foldl
    (fun s f => f s) t

end thread

/-! ## Semaphore -/

/-- Modelled from the spec: the host operating system's counting semaphore, which is not
under `src/` ("a non-negative integer count", "constructed with an initial count and a
maximum count ceiling"). -/
structure os_semaphore where
  count : Nat
  maximum : Nat
deriving DecidableEq, Repr

/-- Modelled from the spec: the POSIX primitive `sem_post` (and `MPSignalSemaphore`), not
under `src/`: adds one to the count when no thread is waiting; at the ceiling the call
fails and the count stays. -/
def sem_post (s : os_semaphore) : os_semaphore :=
  if s.count < s.maximum then { s with count := s.count + 1 } else s

/-- Modelled from the spec: the Win32 primitive `ReleaseSemaphore`, not under `src/`: adds
`n` to the count when no thread is waiting; when that would pass the ceiling the call
fails and the count stays. -/
def ReleaseSemaphore (s : os_semaphore) (n : Nat) : os_semaphore :=
  if s.count + n ≤ s.maximum then { s with count := s.count + n } else s

namespace semaphore

/-- Constructor `semaphore(initial_count, maximum_count)`, Win32 branch:
`CreateSemaphore(NULL, initial_count, maximum_count, NULL)`. The call takes both counts
as `LONG`; it fails, and the object holds no semaphore (`none`), unless the maximum is
greater than zero and the initial count is not above the maximum. -/
def construct_win32 (initial_count maximum_count : Nat) : Option os_semaphore :=
  if 0 < maximum_count ∧ maximum_count < 2147483648 ∧ initial_count ≤ maximum_count then
    some ⟨initial_count, maximum_count⟩
  else
    none

/-- Constructor `semaphore(initial_count, maximum_count)`, Mac OS X branch:
`MPCreateSemaphore(maximum_count, initial_count, &_semaphore)`. The effect of the call is
modelled from the spec ("constructed with an initial count and a maximum count
ceiling"): a semaphore is made only with an initial count that is not above the
maximum. -/
def construct_mac (initial_count maximum_count : Nat) : Option os_semaphore :=
  if initial_count ≤ maximum_count then some ⟨initial_count, maximum_count⟩ else none

/-- Constructor `semaphore(initial_count, maximum_count)`, POSIX branch:
`sem_init(&_semaphore, 0, initial_count)`. The call is not given `maximum_count`; the
ceiling of the semaphore is the platform's `SEM_VALUE_MAX`, here `sem_value_max`. With an
initial count above that ceiling `sem_init` fails, the constructor ignores the result and
the object holds no semaphore (`none`). -/
def construct_posix (sem_value_max initial_count _maximum_count : Nat) :
    Option os_semaphore :=
  if initial_count ≤ sem_value_max then some ⟨initial_count, sem_value_max⟩ else none

/-- The loop `for(uint32 i = 0; i < count; i++) sem_post(&_semaphore);` from index `i`,
with `fuel` bounding the iterations left. -/
def post_loop (count : Nat) : Nat → Nat → os_semaphore → os_semaphore
  | 0, _, s => s
  | fuel + 1, i, s =>
    if i < count then post_loop count fuel ((i + 1) % uint32_range) (sem_post s) else s

/-- Method `increment(uint32 count)`, POSIX and Mac OS X branches. -/
def increment_posix (s : os_semaphore) (count : Nat) : os_semaphore :=
  post_loop count count 0 s

/-- Method `increment(uint32 count)`, Win32 branch. -/
def increment_win32 (s : os_semaphore) (count : Nat) : os_semaphore :=
  ReleaseSemaphore s count

end semaphore

end core

/-! # Theorems -/

namespace core

open string

/-! ## Memory accesses -/

theorem read_heap_lt {m : memory} {a : Nat} {r : string_record}
    (h : m.read (.heap a) = .ok r) : a < m.heap.length ∧ m.heap[a]? = some (some r) := by
  simp only [memory.read] at h
  split at h
  · rename_i r' hr
    cases h
    refine ⟨?_, hr⟩
    by_contra hlt
    rw [List.getElem?_eq_none (by omega)] at hr
    cases hr
  · cases h
  · cases h

theorem read_write_same {m : memory} {p : ptr} {r0 r : string_record}
    (h : m.read p = .ok r0) : (m.write p r).read p = .ok r := by
  cases p with
  | null => cases h
  | null_string => simp [memory.write, memory.read]
  | heap a =>
    have hlt := (read_heap_lt h).1
    simp [memory.write, memory.read, List.getElem?_set, hlt]

theorem read_write_other {m : memory} {p q : ptr} {r : string_record}
    (h : p ≠ q) : (m.write p r).read q = m.read q := by
  cases p <;> cases q <;> simp_all [memory.write, memory.read, List.getElem?_set]

@[simp]
theorem write_deallocated (m : memory) (p : ptr) (r : string_record) :
    (m.write p r).deallocated = m.deallocated := by
  cases p <;> rfl

@[simp]
theorem write_avail (m : memory) (p : ptr) (r : string_record) :
    (m.write p r).avail = m.avail := by
  cases p <;> rfl

@[simp]
theorem write_heap_length (m : memory) (p : ptr) (r : string_record) :
    (m.write p r).heap.length = m.heap.length := by
  cases p <;> simp [memory.write]

@[simp]
theorem deallocate_deallocated (m : memory) (p : ptr) :
    (memory_deallocate p m).deallocated = m.deallocated ++ [p] := by
  cases p <;> rfl

@[simp]
theorem deallocate_avail (m : memory) (p : ptr) :
    (memory_deallocate p m).avail = m.avail := by
  cases p <;> rfl

@[simp]
theorem deallocate_heap_length (m : memory) (p : ptr) :
    (memory_deallocate p m).heap.length = m.heap.length := by
  cases p <;> simp [memory_deallocate]

theorem read_deallocate_same {m : memory} {a : Nat} {r : string_record}
    (h : m.read (.heap a) = .ok r) :
    (memory_deallocate (.heap a) m).read (.heap a) = .error .released_access := by
  have hlt := (read_heap_lt h).1
  simp [memory_deallocate, memory.read, List.getElem?_set, hlt]

theorem read_deallocate_other {m : memory} {p q : ptr} (h : p ≠ q) :
    (memory_deallocate p m).read q = m.read q := by
  cases p <;> cases q <;> simp_all [memory_deallocate, memory.read, List.getElem?_set]

/-! ## The two reference-count statements -/

theorem inc_ref_ok {m : memory} {p : ptr} {r : string_record} (h : m.read p = .ok r) :
    inc_ref p m = .ok () (m.write p { r with ref_count := (r.ref_count + 1) % uint32_range }) := by
  simp [inc_ref, h]

theorem dec_ref_keep {m : memory} {p : ptr} {r : string_record} (h : m.read p = .ok r)
    (hk : p = ptr.null_string ∨ (r.ref_count + (uint32_range - 1)) % uint32_range ≠ 0) :
    _dec_ref p m = .ok ()
      (m.write p { r with ref_count := (r.ref_count + (uint32_range - 1)) % uint32_range }) := by
  simp only [_dec_ref, h]
  rw [if_neg]
  rintro ⟨h0, hp⟩
  rcases hk with hk | hk
  · exact hp hk
  · exact hk h0

theorem dec_ref_release {m : memory} {a : Nat} {r : string_record}
    (h : m.read (.heap a) = .ok r)
    (hz : (r.ref_count + (uint32_range - 1)) % uint32_range = 0) :
    _dec_ref (.heap a) m = .ok ()
      (memory_deallocate (.heap a) (m.write (.heap a) { r with ref_count := 0 })) := by
  simp [_dec_ref, h, hz]

theorem dec_ref_fail {m : memory} {p : ptr} {f : fault} (h : m.read p = .error f) :
    _dec_ref p m = .fail f () m := by
  simp [_dec_ref, h]

theorem inc_ref_fail {m : memory} {p : ptr} {f : fault} (h : m.read p = .error f) :
    inc_ref p m = .fail f () m := by
  simp [inc_ref, h]

/-- Decrement of a count in `1 .. uint32_range - 1` has no wrap-around. -/
theorem dec_mod {k : Nat} (h1 : 1 ≤ k) (h2 : k < uint32_range) :
    (k + (uint32_range - 1)) % uint32_range = k - 1 := by
  unfold uint32_range at *
  omega

/-- Increment of a count below `uint32_range - 1` has no wrap-around. -/
theorem inc_mod {k : Nat} (h : k + 1 < uint32_range) : (k + 1) % uint32_range = k + 1 :=
  Nat.mod_eq_of_lt h

/-! ## Allocation and `set` -/

theorem allocate_ok {m : memory} {size : Nat} (h : size ≤ m.avail) :
    memory_allocate size m = (.heap m.heap.length, m.with_block ⟨0, 0, []⟩ size) := by
  simp [memory_allocate, h]

theorem allocate_none {m : memory} {size : Nat} (h : ¬ size ≤ m.avail) :
    memory_allocate size m = (.null, m) := by
  simp [memory_allocate, h]

@[simp]
theorem with_block_deallocated (m : memory) (r : string_record) (k : Nat) :
    (m.with_block r k).deallocated = m.deallocated := rfl

@[simp]
theorem with_block_heap_length (m : memory) (r : string_record) (k : Nat) :
    (m.with_block r k).heap.length = m.heap.length + 1 := by
  simp [memory.with_block]

/-- A record that can be read keeps its contents when a block is appended to the heap. -/
theorem read_with_block {m : memory} {q : ptr} {r : string_record} (c : string_record)
    (k : Nat) (h : m.read q = .ok r) : (m.with_block c k).read q = .ok r := by
  cases q with
  | null => cases h
  | null_string => simpa [memory.read, memory.with_block] using h
  | heap a =>
    obtain ⟨hlt, hget⟩ := read_heap_lt h
    simp [memory.read, memory.with_block, List.getElem?_append_left hlt, hget]

theorem read_with_block_new (m : memory) (r : string_record) (k : Nat) :
    (m.with_block r k).read (.heap m.heap.length) = .ok r := by
  simp [memory.read, memory.with_block]

theorem write_with_block_new (m : memory) (r c : string_record) (k : Nat) :
    (m.with_block r k).write (.heap m.heap.length) c = m.with_block c k := by
  simp [memory.write, memory.with_block]

theorem read_bytes_with_block {m : memory} {x : buffer} {n : Nat} {bs : List Nat}
    (c : string_record) (k : Nat) (h : read_bytes m x n = .ok bs) :
    read_bytes (m.with_block c k) x n = .ok bs := by
  cases x with
  | bytes b => simpa [read_bytes] using h
  | record_data q =>
    simp only [read_bytes] at h ⊢
    cases hq : m.read q with
    | error f => simp [hq] at h
    | ok r =>
      rw [read_with_block c k hq]
      simpa [hq] using h

/-- Method `set` once `_dec_ref` has completed, the allocator has storage and the source
can be read: the object is bound to a new block holding the bytes and the terminator. -/
theorem set_ok {m m1 : memory} {this : ptr} {x : buffer} {n : Nat} {bs : List Nat}
    (hdec : _dec_ref this m = .ok () m1)
    (hfit : sizeof_string_record + n ≤ m1.avail)
    (hsrc : read_bytes m1 x n = .ok bs) :
    set this x n m = .ok (.heap m1.heap.length)
      (m1.with_block ⟨1, n, bs ++ [0]⟩ (sizeof_string_record + n)) := by
  simp only [string.set, hdec, allocate_ok hfit, write_with_block_new,
    read_bytes_with_block _ _ hsrc]

/-- Method `set` when the allocator returns no storage: the first store goes through the
null pointer. -/
theorem set_no_storage {m m1 : memory} {this : ptr} {x : buffer} {n : Nat}
    (hdec : _dec_ref this m = .ok () m1)
    (hfit : ¬ sizeof_string_record + n ≤ m1.avail) :
    set this x n m = .fail .null_access .null m1 := by
  simp only [string.set, hdec, allocate_none hfit]

/-- Writing a record that differs from the stored one in `ref_count` only leaves every
source buffer as it was. -/
theorem read_bytes_write_count {m : memory} {p : ptr} {r : string_record} (c : Nat)
    (h : m.read p = .ok r) (x : buffer) (n : Nat) :
    read_bytes (m.write p { r with ref_count := c }) x n = read_bytes m x n := by
  cases x with
  | bytes b => rfl
  | record_data q =>
    simp only [read_bytes]
    by_cases hq : p = q
    · subst hq
      rw [read_write_same h, h]
    · rw [read_write_other hq]

/-- With a readable record `_dec_ref` completes; it leaves the allocator and the number of
blocks as they were. -/
theorem dec_ref_total {m : memory} {p : ptr} {r : string_record} (h : m.read p = .ok r) :
    ∃ m1, _dec_ref p m = .ok () m1 ∧ m1.avail = m.avail ∧ m1.heap.length = m.heap.length := by
  simp only [_dec_ref, h]
  split <;> simp

/-- C3: for a string value `a` bound to a live record with content `c`, copy-constructing
`b` from `a` and then destroying `a` leaves `b` bound to that record, which is still
allocated and was not passed to `memory_deallocate`; `b.len()` is the length of `c` and
the bytes at `b.c_str()` are `c` followed by the terminator. -/
theorem copy_survives_destroy (m : memory) (a : ptr) (r : string_record) (c : List Nat)
    (hread : m.read a = .ok r)
    (hlive : a = ptr.null_string ∨ 1 ≤ r.ref_count) (hrange : r.ref_count < uint32_range)
    (hlen : r.len = c.length) (hdata : r.data = c ++ [0]) :
    ∃ b m1 m2, copy_construct a m = .ok b m1 ∧ destroy a m1 = .ok a m2 ∧
      m2.read b = .ok r ∧ m2.deallocated = m.deallocated ∧
      len b m2 = .ok c.length ∧ c_str_bytes b m2 = .ok (c ++ [0]) := by
  have h1 := read_write_same (r := { r with ref_count := (r.ref_count + 1) % uint32_range }) hread
  have hback : ((r.ref_count + 1) % uint32_range + (uint32_range - 1)) % uint32_range
      = r.ref_count := by
    unfold uint32_range at *
    omega
  have hk : a = ptr.null_string ∨
      ((r.ref_count + 1) % uint32_range + (uint32_range - 1)) % uint32_range ≠ 0 := by
    rcases hlive with h | h
    · exact Or.inl h
    · right
      rw [hback]
      omega
  have h2 := dec_ref_keep h1 hk
  simp only [hback] at h2
  have hr : ({ ({ r with ref_count := (r.ref_count + 1) % uint32_range } : string_record)
      with ref_count := r.ref_count } : string_record) = r := by
    cases r; rfl
  rw [hr] at h2
  have h3 : ((m.write a { r with ref_count := (r.ref_count + 1) % uint32_range }).write a r).read a
      = .ok r := read_write_same h1
  refine ⟨a, m.write a { r with ref_count := (r.ref_count + 1) % uint32_range },
    (m.write a { r with ref_count := (r.ref_count + 1) % uint32_range }).write a r,
    ?_, ?_, h3, ?_, ?_, ?_⟩
  · simp only [copy_construct, inc_ref_ok hread]
  · simp only [destroy, h2]
  · simp
  · simp only [string.len, h3]
    rw [hlen]
  · simp only [c_str_bytes, string.len, c_str, read_bytes, h3]
    simp [hlen, hdata]

/-- C3, the scenario of the spec: `string a("hello"); string b = a;` then `a` is destroyed. -/
theorem copy_survives_destroy_hello :
    construct_cstr (.bytes [104, 101, 108, 108, 111, 0]) (memory.init 64)
      = .ok (.heap 0) ⟨null_string_init, [some ⟨1, 5, [104, 101, 108, 108, 111, 0]⟩], [], 47⟩ ∧
    ∃ b m1 m2,
      copy_construct (.heap 0)
        ⟨null_string_init, [some ⟨1, 5, [104, 101, 108, 108, 111, 0]⟩], [], 47⟩ = .ok b m1 ∧
      destroy (.heap 0) m1 = .ok (.heap 0) m2 ∧
      m2.read b = .ok ⟨1, 5, [104, 101, 108, 108, 111, 0]⟩ ∧
      m2.deallocated = [] ∧
      len b m2 = .ok 5 ∧ c_str_bytes b m2 = .ok [104, 101, 108, 108, 111, 0] :=
  ⟨by decide,
   copy_survives_destroy
     ⟨null_string_init, [some ⟨1, 5, [104, 101, 108, 108, 111, 0]⟩], [], 47⟩ (.heap 0)
     ⟨1, 5, [104, 101, 108, 108, 111, 0]⟩ [104, 101, 108, 108, 111]
     rfl (Or.inr (by decide)) (by decide) rfl rfl⟩

/-- The static record is never released by `_dec_ref`, and an increment followed by a
decrement leaves its count as it was. -/
theorem construct_prologue (m : memory) (hrange : m.null_string.ref_count < uint32_range) :
    ∃ m1, inc_ref ptr.null_string m = .ok () m1 ∧ _dec_ref ptr.null_string m1 = .ok () m := by
  have h0 : m.read ptr.null_string = .ok m.null_string := rfl
  refine ⟨_, inc_ref_ok h0, ?_⟩
  rw [dec_ref_keep (read_write_same h0) (Or.inl rfl)]
  have hback : ((m.null_string.ref_count + 1) % uint32_range + (uint32_range - 1)) % uint32_range
      = m.null_string.ref_count := by
    unfold uint32_range at *
    omega
  simp only [memory.write, hback]

/-- Constructor `string(string_data, len)` when the allocator has storage and the source
can be read. -/
theorem construct_ok {m : memory} {x : buffer} {n : Nat} {bs : List Nat}
    (hnull : m.null_string.ref_count < uint32_range)
    (hfit : sizeof_string_record + n ≤ m.avail)
    (hsrc : read_bytes m x n = .ok bs) :
    construct x n m = .ok (.heap m.heap.length)
      (m.with_block ⟨1, n, bs ++ [0]⟩ (sizeof_string_record + n)) := by
  obtain ⟨m1, hinc, hdec⟩ := construct_prologue m hnull
  simp only [construct, hinc, set_ok hdec hfit hsrc]

/-- A list with `strlen` equal to `k` holds more than `k` bytes. -/
theorem strlen_bytes_lt : ∀ (b : List Nat) (k : Nat), strlen_bytes b = some k → k < b.length
  | [], k, h => by simp [strlen_bytes] at h
  | x :: bs, k, h => by
    simp only [strlen_bytes] at h
    split at h
    · cases h
      simp
    · cases hs : strlen_bytes bs with
      | none => simp [hs] at h
      | some j =>
        have := strlen_bytes_lt bs j hs
        simp only [hs, Option.map_some', Option.some.injEq] at h
        simp only [List.length_cons]
        omega

/-- Constructor `string(string_data)` passes on `strlen(string_data)` as a `uint32`. -/
theorem construct_cstr_eq (m : memory) (b : List Nat) (k : Nat)
    (hs : strlen_bytes b = some k) :
    construct_cstr (.bytes b) m = construct (.bytes b) (k % uint32_range) m := by
  simp only [construct_cstr, construct, set_cstr, strlen, hs]

/-- C4, as the code has it, for an allocator that satisfies the request: for a buffer `b`
and a `uint32` value `n` not larger than the length of `b`, `string(b, n)` binds the new
object to a block the allocator had not handed out before, holding `ref_count == 1`,
`len == n`, the first `n` bytes of `b` and a zero byte after them; and for a
zero-terminated `b`, `string(b)` gives the same result as `string(b, n)` with `n` the
value of `strlen(b)` as a `uint32`, `strlen(b)` modulo 2^32. -/
theorem construct_from_buffer (m : memory) (b : List Nat)
    (hnull : m.null_string.ref_count < uint32_range) :
    (∀ n, n < uint32_range → n ≤ b.length → sizeof_string_record + n ≤ m.avail →
      ∃ m', construct (.bytes b) n m = .ok (.heap m.heap.length) m' ∧
        m.read (.heap m.heap.length) = .error .unmapped_access ∧
        m'.read (.heap m.heap.length) = .ok ⟨1, n, b.take n ++ [0]⟩ ∧
        len (.heap m.heap.length) m' = .ok n ∧
        c_str_bytes (.heap m.heap.length) m' = .ok (b.take n ++ [0])) ∧
    (∀ k, strlen_bytes b = some k → sizeof_string_record + k % uint32_range ≤ m.avail →
      construct_cstr (.bytes b) m = construct (.bytes b) (k % uint32_range) m ∧
      ∃ m', construct_cstr (.bytes b) m = .ok (.heap m.heap.length) m' ∧
        m.read (.heap m.heap.length) = .error .unmapped_access ∧
        m'.read (.heap m.heap.length)
          = .ok ⟨1, k % uint32_range, b.take (k % uint32_range) ++ [0]⟩ ∧
        len (.heap m.heap.length) m' = .ok (k % uint32_range) ∧
        c_str_bytes (.heap m.heap.length) m'
          = .ok (b.take (k % uint32_range) ++ [0])) := by
  have key : ∀ n, n ≤ b.length → sizeof_string_record + n ≤ m.avail →
      ∃ m', construct (.bytes b) n m = .ok (.heap m.heap.length) m' ∧
        m.read (.heap m.heap.length) = .error .unmapped_access ∧
        m'.read (.heap m.heap.length) = .ok ⟨1, n, b.take n ++ [0]⟩ ∧
        len (.heap m.heap.length) m' = .ok n ∧
        c_str_bytes (.heap m.heap.length) m' = .ok (b.take n ++ [0]) := by
    intro n hn hfit
    have hsrc : read_bytes m (.bytes b) n = .ok (b.take n) := by
      simp [read_bytes, hn]
    have hnew := read_with_block_new m ⟨1, n, b.take n ++ [0]⟩ (sizeof_string_record + n)
    refine ⟨_, construct_ok hnull hfit hsrc, ?_, hnew, ?_, ?_⟩
    · simp [memory.read]
    · simp only [string.len, hnew]
    · simp only [c_str_bytes, string.len, c_str, read_bytes, hnew]
      simp [hn]
  refine ⟨fun n _ hn hfit => key n hn hfit, ?_⟩
  intro k hs hfit
  have hlt := strlen_bytes_lt b k hs
  have hmod : k % uint32_range ≤ k := Nat.mod_le _ _
  have heq := construct_cstr_eq m b k hs
  refine ⟨heq, ?_⟩
  rw [heq]
  exact key _ (by omega) hfit

/-- C4 as amended, at the two examples of the spec: `string("abc")` and
`string("abc", 2)`. -/
theorem construct_from_buffer_abc :
    (∃ m', construct (.bytes [97, 98, 99, 0]) 2 (memory.init 64) = .ok (.heap 0) m' ∧
      (memory.init 64).read (.heap 0) = .error .unmapped_access ∧
      m'.read (.heap 0) = .ok ⟨1, 2, [97, 98, 0]⟩ ∧
      len (.heap 0) m' = .ok 2 ∧
      c_str_bytes (.heap 0) m' = .ok [97, 98, 0]) ∧
    (construct_cstr (.bytes [97, 98, 99, 0]) (memory.init 64)
        = construct (.bytes [97, 98, 99, 0]) 3 (memory.init 64) ∧
      ∃ m', construct_cstr (.bytes [97, 98, 99, 0]) (memory.init 64) = .ok (.heap 0) m' ∧
        (memory.init 64).read (.heap 0) = .error .unmapped_access ∧
        m'.read (.heap 0) = .ok ⟨1, 3, [97, 98, 99, 0]⟩ ∧
        len (.heap 0) m' = .ok 3 ∧
        c_str_bytes (.heap 0) m' = .ok [97, 98, 99, 0]) :=
  ⟨(construct_from_buffer (memory.init 64) [97, 98, 99, 0] (by decide)).1 2
      (by decide) (by decide) (by decide),
   (construct_from_buffer (memory.init 64) [97, 98, 99, 0] (by decide)).2 3
      (by decide) (by decide)⟩

theorem strlen_bytes_ones : ∀ k : Nat, strlen_bytes (List.replicate k 1 ++ [0]) = some k
  | 0 => by simp [strlen_bytes]
  | k + 1 => by
    have ih := strlen_bytes_ones k
    simp only [List.replicate_succ, List.cons_append, strlen_bytes]
    rw [if_neg (by decide)]
    show Option.map (fun x => x + 1) (strlen_bytes (List.replicate k 1 ++ [0])) = some (k + 1)
    rw [ih]
    rfl

/-- A buffer of `k` one bytes and a terminator, with `k` equal to 1 modulo 2^32:
`string(b)` has `len() == 1`. -/
theorem ones_truncate (k : Nat) (hk : 1 ≤ k) (hmod : k % uint32_range = 1) :
    strlen_bytes (List.replicate k 1 ++ [0]) = some k ∧
    ∃ m', construct_cstr (.bytes (List.replicate k 1 ++ [0])) (memory.init 64)
        = .ok (.heap 0) m' ∧
      len (.heap 0) m' = .ok 1 ∧
      m'.read (.heap 0) = .ok ⟨1, 1, [1, 0]⟩ := by
  have hs := strlen_bytes_ones k
  have htake : (List.replicate k 1 ++ [0]).take 1 = [1] := by
    obtain ⟨j, rfl⟩ : ∃ j, k = j + 1 := ⟨k - 1, by omega⟩
    simp [List.replicate_succ]
  have hsrc : read_bytes (memory.init 64) (.bytes (List.replicate k 1 ++ [0])) 1
      = .ok [1] := by
    simp only [read_bytes, List.length_append, List.length_replicate, List.length_singleton]
    rw [if_pos (by omega), htake]
  have hc := construct_ok (m := memory.init 64) (by decide) (by decide) hsrc
  have hnew : ((memory.init 64).with_block ⟨1, 1, [1] ++ [0]⟩
      (sizeof_string_record + 1)).read (.heap 0) = .ok ⟨1, 1, [1, 0]⟩ :=
    read_with_block_new (memory.init 64) ⟨1, 1, [1] ++ [0]⟩ (sizeof_string_record + 1)
  refine ⟨hs, _, ?_, ?_, hnew⟩
  · rw [construct_cstr_eq _ _ k hs, hmod]
    exact hc
  · simp only [string.len, hnew]

/-- C4 as stated fails at a zero-terminated buffer of 2^32 + 1 one bytes: `strlen(b)` is
4294967297, `uint32 len = strlen(string_data)` keeps 1, and `string(b)` is bound to a
record with `len() == 1` holding one byte and the terminator. -/
theorem construct_truncates_strlen :
    strlen_bytes (List.replicate 4294967297 1 ++ [0]) = some 4294967297 ∧
    ∃ m', construct_cstr (.bytes (List.replicate 4294967297 1 ++ [0])) (memory.init 64)
        = .ok (.heap 0) m' ∧
      len (.heap 0) m' = .ok 1 ∧
      m'.read (.heap 0) = .ok ⟨1, 1, [1, 0]⟩ :=
  ones_truncate 4294967297 (by decide) (by decide)

/-- C2: the self-assignment `s = s` of a string that is the only owner of its record, here
`string s("hi")`: `_dec_ref` brings the count to zero and passes the record to
`memory_deallocate`, and the following `ref_count++` goes to the released record. -/
theorem self_assign_releases_own_record :
    construct_cstr (.bytes [104, 105, 0]) (memory.init 64)
      = .ok (.heap 0) ⟨null_string_init, [some ⟨1, 2, [104, 105, 0]⟩], [], 50⟩ ∧
    assign (.heap 0) (.heap 0) ⟨null_string_init, [some ⟨1, 2, [104, 105, 0]⟩], [], 50⟩
      = .fail .released_access (.heap 0) ⟨null_string_init, [none], [.heap 0], 50⟩ ∧
    len (.heap 0) ⟨null_string_init, [none], [.heap 0], 50⟩ = .error .released_access :=
  ⟨rfl, rfl, rfl⟩

/-- C10: the call `s.set(s.c_str(), s.len())` on a string that is the only owner of its
record, here `string s("hi")`: `_dec_ref` passes the record to `memory_deallocate` before
`memcpy` reads its source bytes from that record. -/
theorem set_from_own_c_str_reads_released_record :
    construct_cstr (.bytes [104, 105, 0]) (memory.init 64)
      = .ok (.heap 0) ⟨null_string_init, [some ⟨1, 2, [104, 105, 0]⟩], [], 50⟩ ∧
    len (.heap 0) ⟨null_string_init, [some ⟨1, 2, [104, 105, 0]⟩], [], 50⟩ = .ok 2 ∧
    set (.heap 0) (c_str (.heap 0)) 2
        ⟨null_string_init, [some ⟨1, 2, [104, 105, 0]⟩], [], 50⟩
      = .fail .released_access (.heap 1)
          ⟨null_string_init, [none, some ⟨1, 2, []⟩], [.heap 0], 36⟩ :=
  ⟨rfl, rfl, rfl⟩

/-! ## Objects of a program -/

theorem field_eq {st : program_state} {i : Nat} {p : ptr} (h : st.field i = some p) :
    i < st.objs.length ∧ st.objs[i]? = some (some p) := by
  unfold program_state.field at h
  split at h
  · rename_i q hq
    cases h
    refine ⟨?_, hq⟩
    by_contra hlt
    rw [List.getElem?_eq_none (by omega)] at hq
    cases hq
  · cases h

theorem field_of_get {st : program_state} {i : Nat} {p : ptr}
    (h : st.objs[i]? = some (some p)) : st.field i = some p := by
  simp [program_state.field, h]

theorem field_set_same {m : memory} {objs : List (Option ptr)} {i : Nat} (q : ptr)
    (h : i < objs.length) :
    (⟨m, objs.set i (some q)⟩ : program_state).field i = some q := by
  simp [program_state.field, List.getElem?_set, h]

theorem field_set_other {m m' : memory} {objs : List (Option ptr)} {i j : Nat}
    (o : Option ptr) (h : i ≠ j) :
    (⟨m', objs.set i o⟩ : program_state).field j = (⟨m, objs⟩ : program_state).field j := by
  simp [program_state.field, List.getElem?_set_ne h]

/-- C5: when two live string values `a` and `b` are bound to one record `r`, `a.set(x, n)`
completes, leaves `b` bound to `r`, leaves the `len` and `data` of `r` as they were, takes
exactly one from the `ref_count` of `r`, makes no `memory_deallocate` call, and binds `a`
to another record, one the allocator had not handed out before, which holds the first `n`
bytes of `x` and the terminator. -/
theorem set_leaves_other_holder (st : program_state) (a b : Nat) (p : ptr)
    (r : string_record) (x : buffer) (n : Nat) (bs : List Nat)
    (hab : a ≠ b) (ha : st.field a = some p) (hb : st.field b = some p)
    (hread : st.mem.read p = .ok r)
    (hshared : 2 ≤ r.ref_count) (hrange : r.ref_count < uint32_range)
    (hsrc : read_bytes st.mem x n = .ok bs)
    (hfit : sizeof_string_record + n ≤ st.mem.avail) :
    ∃ st', step (.set a x n) st = ⟨st', none⟩ ∧
      st'.field b = some p ∧
      st'.mem.read p = .ok { r with ref_count := r.ref_count - 1 } ∧
      st'.mem.deallocated = st.mem.deallocated ∧
      st'.field a = some (.heap st.mem.heap.length) ∧
      ptr.heap st.mem.heap.length ≠ p ∧
      st.mem.read (.heap st.mem.heap.length) = .error .unmapped_access ∧
      st'.mem.read (.heap st.mem.heap.length) = .ok ⟨1, n, bs ++ [0]⟩ := by
  have hc : (r.ref_count + (uint32_range - 1)) % uint32_range = r.ref_count - 1 :=
    dec_mod (by omega) hrange
  have hdec := dec_ref_keep hread (Or.inr (by rw [hc]; omega))
  rw [hc] at hdec
  have hsrc1 : read_bytes (st.mem.write p { r with ref_count := r.ref_count - 1 }) x n
      = .ok bs := by
    rw [read_bytes_write_count _ hread]; exact hsrc
  have hset := set_ok hdec (by simpa using hfit) hsrc1
  have hfresh : st.mem.read (.heap st.mem.heap.length) = .error .unmapped_access := by
    simp [memory.read]
  have hne : ptr.heap st.mem.heap.length ≠ p := by
    intro h
    rw [← h, hfresh] at hread
    cases hread
  simp only [write_heap_length, write_avail] at hset
  refine ⟨⟨(st.mem.write p { r with ref_count := r.ref_count - 1 }).with_block
      ⟨1, n, bs ++ [0]⟩ (sizeof_string_record + n),
      st.objs.set a (some (.heap st.mem.heap.length))⟩, ?_, ?_, ?_, ?_, ?_, hne, hfresh, ?_⟩
  · simp only [step, ha, hset, updated]
  · rw [field_set_other _ hab]
    exact hb
  · exact read_with_block _ _ (read_write_same hread)
  · simp
  · exact field_set_same _ (field_eq ha).1
  · have := read_with_block_new (st.mem.write p { r with ref_count := r.ref_count - 1 })
      ⟨1, n, bs ++ [0]⟩ (sizeof_string_record + n)
    simpa using this

/-- C5 at `string a("ab"); string b = a; a.set("xy", 2);`. -/
theorem set_leaves_other_holder_ab :
    ∃ st', step (.set 0 (.bytes [120, 121]) 2)
        ⟨⟨null_string_init, [some ⟨2, 2, [97, 98, 0]⟩], [], 50⟩,
          [some (.heap 0), some (.heap 0)]⟩ = ⟨st', none⟩ ∧
      st'.field 1 = some (.heap 0) ∧
      st'.mem.read (.heap 0) = .ok ⟨1, 2, [97, 98, 0]⟩ ∧
      st'.mem.deallocated = [] ∧
      st'.field 0 = some (.heap 1) ∧
      ptr.heap 1 ≠ ptr.heap 0 ∧
      memory.read ⟨null_string_init, [some ⟨2, 2, [97, 98, 0]⟩], [], 50⟩ (.heap 1)
        = .error .unmapped_access ∧
      st'.mem.read (.heap 1) = .ok ⟨1, 2, [120, 121, 0]⟩ :=
  set_leaves_other_holder
    ⟨⟨null_string_init, [some ⟨2, 2, [97, 98, 0]⟩], [], 50⟩, [some (.heap 0), some (.heap 0)]⟩
    0 1 (.heap 0) ⟨2, 2, [97, 98, 0]⟩ (.bytes [120, 121]) 2 [120, 121]
    (by decide) rfl rfl rfl (by decide) (by decide) rfl (by decide)

/-- Every schedule of `_return_value = 0` against `thread_proc` ends in the same state. -/
theorem start_and_finish_eq (sched : List Bool) (v : Nat) (t : thread) :
    thread.start_and_finish sched v t =
      { _return_value := 0, _thread_running := false,
        ret := some (v % uint32_range), exit_value := some (v % uint32_range) } := by
  rcases sched with _ | ⟨b1, _ | ⟨b2, _ | ⟨b3, _ | ⟨b4, rest⟩⟩⟩⟩ <;>
    (try cases b1) <;> (try cases b2) <;> (try cases b3) <;> (try cases b4) <;>
    simp [thread.start_and_finish, thread.start_before_create, thread.start_after_create,
      thread.thread_proc, thread.interleave]

/-- C7: for a `run()` that returns 1, under every schedule of `start()` against the new
thread, the final state has `is_running() == false`, the value 1 went to the operating
system only, and `_return_value` is 0. -/
theorem start_discards_run_value (sched : List Bool) (r0 : Nat) :
    (thread.start_and_finish sched 1 (thread.construct r0)).is_running = false ∧
    (thread.start_and_finish sched 1 (thread.construct r0)).exit_value = some 1 ∧
    (thread.start_and_finish sched 1 (thread.construct r0))._return_value = 0 ∧
    (thread.start_and_finish sched 1 (thread.construct r0))._return_value ≠ 1 := by
  rw [start_and_finish_eq]
  simp [thread.is_running, uint32_range]

/-! ## Semaphore -/

theorem post_loop_spec (count : Nat) (hc : count < uint32_range) :
    ∀ (fuel i : Nat) (s : os_semaphore), i + fuel = count → s.count + fuel ≤ s.maximum →
      semaphore.post_loop count fuel i s = { s with count := s.count + fuel } := by
  intro fuel
  induction fuel with
  | zero => intro i s _ _; simp [semaphore.post_loop]
  | succ k ih =>
    intro i s hi hs
    have hlt : i < count := by omega
    have hpost : sem_post s = { s with count := s.count + 1 } := by
      simp only [sem_post]
      rw [if_pos (by omega)]
    have hmod : (i + 1) % uint32_range = i + 1 := Nat.mod_eq_of_lt (by omega)
    simp only [semaphore.post_loop, hlt, if_true, hpost, hmod]
    rw [ih (i + 1) _ (by omega) (by simpa using (by omega : s.count + 1 + k ≤ s.maximum))]
    simp [Nat.add_assoc, Nat.add_comm 1 k]

/-- C9, as the code has it: for a semaphore with count `c` and no waiting thread, and a
`uint32` argument `n` with `c + n` not above the ceiling the operating system holds for
the semaphore, `increment(n)` leaves the count at `c + n` on the POSIX / Mac OS X branch
(`n` single posts) and on the Win32 branch (one release of `n`), so both branches give
the same semaphore. A semaphore made by the Win32 or the Mac OS X constructor has the
configured `maximum_count` as its ceiling; one made by the POSIX constructor has the
platform's `SEM_VALUE_MAX`, whatever `maximum_count` is. -/
theorem increment_adds (s : os_semaphore) (n : Nat) (hn : n < uint32_range)
    (hmax : s.count + n ≤ s.maximum) :
    (semaphore.increment_posix s n = { s with count := s.count + n } ∧
      semaphore.increment_win32 s n = { s with count := s.count + n } ∧
      semaphore.increment_posix s n = semaphore.increment_win32 s n) ∧
    (∀ c M t, semaphore.construct_win32 c M = some t → t = ⟨c, M⟩) ∧
    (∀ c M t, semaphore.construct_mac c M = some t → t = ⟨c, M⟩) ∧
    (∀ S c M t, semaphore.construct_posix S c M = some t → t = ⟨c, S⟩) := by
  have h1 : semaphore.increment_posix s n = { s with count := s.count + n } :=
    post_loop_spec n hn n 0 s (by omega) hmax
  have h2 : semaphore.increment_win32 s n = { s with count := s.count + n } := by
    simp [semaphore.increment_win32, ReleaseSemaphore, hmax]
  refine ⟨⟨h1, h2, h1.trans h2.symm⟩, ?_, ?_, ?_⟩
  · intro c M t h
    unfold semaphore.construct_win32 at h
    split at h
    · exact (Option.some.inj h).symm
    · cases h
  · intro c M t h
    unfold semaphore.construct_mac at h
    split at h
    · exact (Option.some.inj h).symm
    · cases h
  · intro S c M t h
    unfold semaphore.construct_posix at h
    split at h
    · exact (Option.some.inj h).symm
    · cases h

/-- C9 as amended, at `semaphore s(2); s.increment(3);` with the default `maximum_count`
1024: the semaphore of the Win32 constructor, and the one of the POSIX constructor on a
platform whose `SEM_VALUE_MAX` is 2147483647. -/
theorem increment_adds_three :
    (semaphore.construct_win32 2 1024 = some ⟨2, 1024⟩ ∧
      semaphore.increment_posix ⟨2, 1024⟩ 3 = ⟨5, 1024⟩ ∧
      semaphore.increment_win32 ⟨2, 1024⟩ 3 = ⟨5, 1024⟩ ∧
      semaphore.increment_posix ⟨2, 1024⟩ 3 = semaphore.increment_win32 ⟨2, 1024⟩ 3) ∧
    (semaphore.construct_posix 2147483647 2 1024 = some ⟨2, 2147483647⟩ ∧
      semaphore.increment_posix ⟨2, 2147483647⟩ 3 = ⟨5, 2147483647⟩) :=
  ⟨⟨by decide, (increment_adds ⟨2, 1024⟩ 3 (by decide) (by decide)).1⟩,
   ⟨by decide, (increment_adds ⟨2, 2147483647⟩ 3 (by decide) (by decide)).1.1⟩⟩

/-- C9 as stated fails on the POSIX branch at `semaphore s(2147483646, 4294967295);
s.increment(3);` on a platform whose `SEM_VALUE_MAX` is 2147483647: `c + n` is
2147483649, below the configured maximum 4294967295, but the second and third `sem_post`
fail at the ceiling and the count stays at 2147483647. -/
theorem increment_stops_at_sem_value_max :
    semaphore.construct_posix 2147483647 2147483646 4294967295
      = some ⟨2147483646, 2147483647⟩ ∧
    2147483646 + 3 ≤ 4294967295 ∧
    semaphore.increment_posix ⟨2147483646, 2147483647⟩ 3 = ⟨2147483647, 2147483647⟩ ∧
    (semaphore.increment_posix ⟨2147483646, 2147483647⟩ 3).count ≠ 2147483646 + 3 := by
  decide

/-! ## The static record is never released -/

theorem inc_ref_deallocated (p : ptr) (m : memory) :
    (inc_ref p m).mem.deallocated = m.deallocated := by
  unfold inc_ref
  split <;> simp [outcome.mem]

theorem dec_ref_sentinel (p : ptr) (m : memory) :
    (_dec_ref p m).mem.deallocated.count ptr.null_string
      = m.deallocated.count ptr.null_string := by
  unfold _dec_ref
  split
  · simp [outcome.mem]
  · simp only []
    split
    · rename_i h
      simp [outcome.mem, List.count_singleton, h.2]
    · simp [outcome.mem]

theorem allocate_deallocated (size : Nat) (m : memory) :
    (memory_allocate size m).2.deallocated = m.deallocated := by
  unfold memory_allocate
  split <;> simp

theorem set_sentinel (this : ptr) (x : buffer) (n : Nat) (m : memory) :
    (set this x n m).mem.deallocated.count ptr.null_string
      = m.deallocated.count ptr.null_string := by
  have hd := dec_ref_sentinel this m
  cases h : _dec_ref this m with
  | fail f a m1 =>
    rw [h] at hd
    simpa [string.set, h, outcome.mem] using hd
  | ok a m1 =>
    rw [h] at hd
    simp only [outcome.mem] at hd
    by_cases hfit : sizeof_string_record + n ≤ m1.avail
    · simp only [string.set, h, allocate_ok hfit]
      split <;> simp [outcome.mem, hd]
    · simp only [string.set, h, allocate_none hfit, outcome.mem, hd]

theorem default_construct_sentinel (m : memory) :
    (default_construct m).mem.deallocated.count ptr.null_string
      = m.deallocated.count ptr.null_string := by
  have h := inc_ref_deallocated ptr.null_string m
  unfold default_construct
  cases h1 : inc_ref ptr.null_string m <;> rw [h1] at h <;> simp_all [outcome.mem]

theorem copy_construct_sentinel (q : ptr) (m : memory) :
    (copy_construct q m).mem.deallocated.count ptr.null_string
      = m.deallocated.count ptr.null_string := by
  have h := inc_ref_deallocated q m
  unfold copy_construct
  cases h1 : inc_ref q m <;> rw [h1] at h <;> simp_all [outcome.mem]

theorem destroy_sentinel (p : ptr) (m : memory) :
    (destroy p m).mem.deallocated.count ptr.null_string
      = m.deallocated.count ptr.null_string := by
  have h := dec_ref_sentinel p m
  unfold destroy
  cases h1 : _dec_ref p m <;> rw [h1] at h <;> simp_all [outcome.mem]

theorem assign_sentinel (p q : ptr) (m : memory) :
    (assign p q m).mem.deallocated.count ptr.null_string
      = m.deallocated.count ptr.null_string := by
  have h := dec_ref_sentinel p m
  unfold assign
  cases h1 : _dec_ref p m with
  | fail f a m1 => rw [h1] at h; simp_all [outcome.mem]
  | ok a m1 =>
    rw [h1] at h
    have h2 := inc_ref_deallocated q m1
    cases h3 : inc_ref q m1 <;> rw [h3] at h2 <;> simp_all [outcome.mem]

theorem set_cstr_sentinel (p : ptr) (x : buffer) (m : memory) :
    (set_cstr p x m).mem.deallocated.count ptr.null_string
      = m.deallocated.count ptr.null_string := by
  unfold set_cstr
  split
  · simp [outcome.mem]
  · exact set_sentinel _ _ _ _

theorem construct_sentinel (x : buffer) (n : Nat) (m : memory) :
    (construct x n m).mem.deallocated.count ptr.null_string
      = m.deallocated.count ptr.null_string := by
  have h := inc_ref_deallocated ptr.null_string m
  unfold construct
  cases h1 : inc_ref ptr.null_string m with
  | fail f a m1 => rw [h1] at h; simp_all [outcome.mem]
  | ok a m1 =>
    rw [h1] at h
    simp only [outcome.mem] at h
    simp only [set_sentinel, h]

theorem construct_cstr_sentinel (x : buffer) (m : memory) :
    (construct_cstr x m).mem.deallocated.count ptr.null_string
      = m.deallocated.count ptr.null_string := by
  have h := inc_ref_deallocated ptr.null_string m
  unfold construct_cstr
  cases h1 : inc_ref ptr.null_string m with
  | fail f a m1 => rw [h1] at h; simp_all [outcome.mem]
  | ok a m1 =>
    rw [h1] at h
    simp only [outcome.mem] at h
    simp only [set_cstr_sentinel, h]

@[simp]
theorem constructed_mem (st : program_state) (o : outcome ptr) :
    (constructed st o).state.mem = o.mem := by
  cases o <;> rfl

@[simp]
theorem updated_mem (st : program_state) (i : Nat) (o : outcome ptr) :
    (updated st i o).state.mem = o.mem := by
  cases o <;> rfl

@[simp]
theorem destroyed_mem (st : program_state) (i : Nat) (o : outcome ptr) :
    (destroyed st i o).state.mem = o.mem := by
  cases o <;> rfl

theorem step_sentinel (op : string_op) (st : program_state) :
    (step op st).state.mem.deallocated.count ptr.null_string
      = st.mem.deallocated.count ptr.null_string := by
  cases op with
  | default_construct => simp [step, default_construct_sentinel]
  | construct_cstr b => simp [step, construct_cstr_sentinel]
  | construct b n => simp [step, construct_sentinel]
  | copy_construct src =>
    simp only [step]
    split <;> simp [copy_construct_sentinel]
  | assign dst src =>
    simp only [step]
    split <;> simp [assign_sentinel]
  | set_cstr i b =>
    simp only [step]
    split <;> simp [set_cstr_sentinel]
  | set i b n =>
    simp only [step]
    split <;> simp [set_sentinel]
  | destroy i =>
    simp only [step]
    split <;> simp [destroy_sentinel]

/-- C6: from every state and for every sequence of string operations (default
construction, construction from a buffer, copy construction, assignment, `set`,
destruction), run to its end or to the fault it stops at, no `memory_deallocate` call
made on the way has the static empty record as its argument, whatever that record's
`ref_count` is or becomes. -/
theorem sentinel_never_deallocated (ops : List string_op) (st : program_state) :
    (run ops st).state.mem.deallocated.count ptr.null_string
      = st.mem.deallocated.count ptr.null_string := by
  induction ops generalizing st with
  | nil => rfl
  | cons op ops ih =>
    simp only [run]
    split
    · rw [ih, step_sentinel]
    · exact step_sentinel op st

/-! ## Reference counts against live objects -/

theorem record_ok_frame {st st' : program_state} {a : Nat}
    (hl : live_count st' (.heap a) = live_count st (.heap a))
    (hr : st'.mem.read (.heap a) = st.mem.read (.heap a))
    (hd : st'.mem.deallocated.count (.heap a) = st.mem.deallocated.count (.heap a))
    (h : record_ok st a) : record_ok st' a := by
  unfold record_ok release_count at *
  rw [hl, hr, hd]
  exact h

theorem bound_ok_frame {m m' : memory} {o : Option ptr}
    (hlen : m'.heap.length = m.heap.length) (h : bound_ok m o) : bound_ok m' o := by
  cases o with
  | none => trivial
  | some p =>
    cases p with
    | null => exact h
    | null_string => trivial
    | heap a => simpa [bound_ok, hlen] using h

/-- A record with a live owner is allocated, its count is the number of owners, and it has
never been released. -/
theorem live_read {st : program_state} {b : Nat} (h : counts_ok st)
    (hl : 1 ≤ live_count st (.heap b)) :
    ∃ r, st.mem.read (.heap b) = .ok r ∧ r.ref_count = live_count st (.heap b) ∧
      st.mem.deallocated.count (.heap b) = 0 ∧ b < st.mem.heap.length := by
  have hmem : some (ptr.heap b) ∈ st.objs := List.count_pos_iff.mp hl
  have hb : b < st.mem.heap.length := h.2 _ hmem
  have hrec := h.1 b hb
  unfold record_ok release_count at hrec
  rw [if_neg (by omega)] at hrec
  cases hr : st.mem.read (.heap b) with
  | error f => rw [hr] at hrec; simp [Except.map] at hrec
  | ok r =>
    rw [hr] at hrec
    simp only [Except.map, Except.ok.injEq] at hrec
    exact ⟨r, rfl, hrec.1, hrec.2, hb⟩

theorem live_not_null {st : program_state} (h : counts_ok st) :
    live_count st ptr.null = 0 := by
  by_contra hne
  have hmem : some ptr.null ∈ st.objs := List.count_pos_iff.mp (Nat.pos_of_ne_zero hne)
  exact h.2 _ hmem

theorem count_set_slot {objs : List (Option ptr)} {i : Nat} {o : Option ptr}
    (hget : objs[i]? = some o) (o' : Option ptr) (x : ptr) :
    (objs.set i o').count (some x) + (if o = some x then 1 else 0)
      = objs.count (some x) + (if o' = some x then 1 else 0) := by
  have hlt : i < objs.length := by
    by_contra hlt
    rw [List.getElem?_eq_none (by omega)] at hget
    cases hget
  have hget' : objs[i] = o := by
    rw [List.getElem?_eq_getElem hlt] at hget
    exact Option.some.inj hget
  have hc := List.count_set o' (some x) objs i hlt
  have hle : (if objs[i] == some x then 1 else 0) ≤ objs.count (some x) := by
    split
    · rename_i heq
      have hx : objs[i] = some x := by simpa using heq
      exact List.count_pos_iff.mpr (hx ▸ List.getElem_mem hlt)
    · omega
  simp only [hget', beq_iff_eq] at hc hle
  omega

/-- One more live object bound to `q`, and `ref_count++` on the record of `q`. -/
theorem inc_counts_ok {st : program_state} {q : ptr} (objs' : List (Option ptr))
    (h : counts_ok st) (hq : q = ptr.null_string ∨ 1 ≤ live_count st q)
    (hlt : live_count st q + 1 < uint32_range)
    (hcount : ∀ x, objs'.count (some x) = st.objs.count (some x) + (if q = x then 1 else 0))
    (hmem : ∀ o ∈ objs', o ∈ st.objs ∨ o = some q) :
    ∃ m1, inc_ref q st.mem = .ok () m1 ∧ counts_ok ⟨m1, objs'⟩ := by
  cases q with
  | null =>
    rcases hq with hq | hq
    · cases hq
    · rw [live_not_null h] at hq
      omega
  | null_string =>
    have h0 : st.mem.read ptr.null_string = .ok st.mem.null_string := rfl
    refine ⟨_, inc_ref_ok h0, ?_, ?_⟩
    · intro a ha
      have ha' : a < st.mem.heap.length := by simpa using ha
      refine record_ok_frame ?_ ?_ ?_ (h.1 a ha')
      · simp [live_count, hcount]
      · exact read_write_other (p := ptr.null_string) (q := ptr.heap a) (by simp)
      · simp
    · intro o ho
      rcases hmem o ho with ho | ho
      · exact bound_ok_frame (by simp) (h.2 o ho)
      · subst ho; trivial
  | heap b =>
    have hl : 1 ≤ live_count st (.heap b) := by
      rcases hq with hq | hq
      · cases hq
      · exact hq
    obtain ⟨r, hread, hrc, hrel, hb⟩ := live_read h hl
    refine ⟨_, inc_ref_ok hread, ?_, ?_⟩
    · intro a ha
      have ha' : a < st.mem.heap.length := by simpa using ha
      by_cases hab : b = a
      · subst hab
        unfold record_ok release_count
        have hlive : live_count ⟨st.mem.write (.heap b)
            { r with ref_count := (r.ref_count + 1) % uint32_range }, objs'⟩ (.heap b)
            = live_count st (.heap b) + 1 := by
          simp [live_count, hcount]
        rw [hlive, if_neg (by omega)]
        simp only [read_write_same hread, Except.map, write_deallocated]
        rw [hrc, inc_mod hlt]
        exact ⟨rfl, hrel⟩
      · refine record_ok_frame ?_ ?_ ?_ (h.1 a ha')
        · simp [live_count, hcount, hab]
        · exact read_write_other (p := ptr.heap b) (q := ptr.heap a) (by simpa using hab)
        · simp
    · intro o ho
      rcases hmem o ho with ho | ho
      · exact bound_ok_frame (by simp) (h.2 o ho)
      · subst ho
        simpa [bound_ok] using hb

/-- The object in slot `i` gives up its reference: `_dec_ref` on its record. -/
theorem dec_counts_ok {st : program_state} {i : Nat} {p : ptr}
    (h : counts_ok st) (hf : st.field i = some p) (hlt : st.objs.length < uint32_range) :
    ∃ m1, _dec_ref p st.mem = .ok () m1 ∧ counts_ok ⟨m1, st.objs.set i none⟩ := by
  obtain ⟨hi, hget⟩ := field_eq hf
  have hcount : ∀ x, (st.objs.set i none).count (some x) + (if p = x then 1 else 0)
      = st.objs.count (some x) := by
    intro x
    have := count_set_slot hget none x
    simpa using this
  have hmem : ∀ o ∈ st.objs.set i none, o ∈ st.objs ∨ o = none := fun o ho =>
    List.mem_or_eq_of_mem_set ho
  have hbound : ∀ m1 : memory, m1.heap.length = st.mem.heap.length →
      ∀ o ∈ st.objs.set i none, bound_ok m1 o := by
    intro m1 hlen o ho
    rcases hmem o ho with ho | ho
    · exact bound_ok_frame hlen (h.2 o ho)
    · subst ho; trivial
  have hpos : 1 ≤ live_count st p :=
    List.count_pos_iff.mpr (List.getElem?_mem hget)
  cases p with
  | null =>
    rw [live_not_null h] at hpos
    omega
  | null_string =>
    have h0 : st.mem.read ptr.null_string = .ok st.mem.null_string := rfl
    refine ⟨_, dec_ref_keep h0 (Or.inl rfl), ?_, hbound _ (by simp only [deallocate_heap_length, write_heap_length])⟩
    intro a ha
    have ha' : a < st.mem.heap.length := by simpa using ha
    refine record_ok_frame ?_ ?_ ?_ (h.1 a ha')
    · have := hcount (.heap a)
      simpa [live_count] using this
    · exact read_write_other (p := ptr.null_string) (q := ptr.heap a) (by simp)
    · simp
  | heap b =>
    obtain ⟨r, hread, hrc, hrel, hb⟩ := live_read h hpos
    have hle : live_count st (.heap b) ≤ st.objs.length := List.count_le_length _ _
    have hc : (r.ref_count + (uint32_range - 1)) % uint32_range = r.ref_count - 1 :=
      dec_mod (by omega) (by omega)
    have hother : ∀ a, b ≠ a →
        (st.objs.set i none).count (some (ptr.heap a)) = st.objs.count (some (ptr.heap a)) := by
      intro a hab
      have := hcount (.heap a)
      simpa [hab] using this
    have hsame : (st.objs.set i none).count (some (ptr.heap b)) + 1
        = st.objs.count (some (ptr.heap b)) := by
      have := hcount (.heap b)
      simpa using this
    by_cases hone : r.ref_count = 1
    · refine ⟨_, dec_ref_release hread (by rw [hc, hone]), ?_, hbound _ (by simp only [deallocate_heap_length, write_heap_length])⟩
      intro a ha
      have ha' : a < st.mem.heap.length := by simpa using ha
      by_cases hab : b = a
      · subst hab
        unfold record_ok release_count
        have hlive : live_count ⟨memory_deallocate (.heap b)
            (st.mem.write (.heap b) { r with ref_count := 0 }), st.objs.set i none⟩ (.heap b)
            = 0 := by
          simp only [live_count] at hrc ⊢
          omega
        rw [hlive, if_pos rfl]
        refine ⟨read_deallocate_same (read_write_same hread), ?_⟩
        simp [hrel]
      · refine record_ok_frame ?_ ?_ ?_ (h.1 a ha')
        · simpa [live_count] using hother a hab
        · have hne : ptr.heap b ≠ ptr.heap a := by simpa using hab
          exact (read_deallocate_other hne).trans (read_write_other hne)
        · simp [List.count_singleton, hab]
    · refine ⟨_, dec_ref_keep hread (Or.inr (by rw [hc]; omega)), ?_, hbound _ (by simp only [deallocate_heap_length, write_heap_length])⟩
      intro a ha
      have ha' : a < st.mem.heap.length := by simpa using ha
      by_cases hab : b = a
      · subst hab
        unfold record_ok release_count
        have hlive : live_count ⟨st.mem.write (.heap b)
            { r with ref_count := (r.ref_count + (uint32_range - 1)) % uint32_range },
            st.objs.set i none⟩ (.heap b) = r.ref_count - 1 := by
          simp only [live_count] at hrc ⊢
          omega
        rw [hlive, if_neg (by omega)]
        simp only [read_write_same hread, Except.map, write_deallocated]
        rw [hc]
        exact ⟨rfl, hrel⟩
      · refine record_ok_frame ?_ ?_ ?_ (h.1 a ha')
        · simpa [live_count] using hother a hab
        · exact read_write_other (p := ptr.heap b) (q := ptr.heap a) (by simpa using hab)
        · simp

theorem field_some {st : program_state} {i : Nat} (h : (st.field i).isSome = true) :
    ∃ p, st.field i = some p := Option.isSome_iff_exists.mp h

theorem field_live {st : program_state} {i : Nat} {p : ptr} (h : st.field i = some p) :
    1 ≤ live_count st p :=
  List.count_pos_iff.mpr (List.getElem?_mem (field_eq h).2)

/-- One enabled operation keeps the counts and completes. -/
theorem share_step {st : program_state} {op : string_op} (h : counts_ok st)
    (hen : share_enabled st op)
    (hlt : st.objs.length + copy_constructions [op] < uint32_range) :
    (step op st).fault = none ∧ counts_ok (step op st).state ∧
      (step op st).state.objs.length = st.objs.length + copy_constructions [op] := by
  have hle : ∀ (l : List (Option ptr)) (x : ptr), l.count (some x) ≤ l.length :=
    fun l x => List.count_le_length _ _
  cases op with
  | default_construct => exact hen.elim
  | construct_cstr b => exact hen.elim
  | construct b n => exact hen.elim
  | set_cstr i b => exact hen.elim
  | set i b n => exact hen.elim
  | copy_construct src =>
    obtain ⟨q, hf⟩ := field_some hen
    have hq := field_live hf
    obtain ⟨m1, hinc, hok⟩ := inc_counts_ok (st.objs ++ [some q]) h
      (Or.inr hq)
      (by
        have := hle st.objs q
        simp only [copy_constructions] at hlt
        simp only [live_count]
        omega)
      (by intro x; simp [List.count_singleton])
      (by intro o ho; simpa using ho)
    simp only [step, hf, copy_construct, hinc, constructed]
    exact ⟨trivial, hok, by simp [copy_constructions]⟩
  | destroy i =>
    obtain ⟨p, hf⟩ := field_some hen
    simp only [copy_constructions] at hlt
    obtain ⟨m1, hdec, hok⟩ := dec_counts_ok h hf (by omega)
    simp only [step, hf, destroy, hdec, destroyed]
    exact ⟨trivial, hok, by simp [copy_constructions]⟩
  | assign dst src =>
    obtain ⟨hd, hs, hself⟩ := hen
    obtain ⟨p, hfd⟩ := field_some hd
    obtain ⟨q, hfs⟩ := field_some hs
    simp only [copy_constructions] at hlt
    obtain ⟨m1, hdec, hok1⟩ := dec_counts_ok h hfd (by omega)
    obtain ⟨hdl, hdget⟩ := field_eq hfd
    have hslot : (st.objs.set dst none)[dst]? = some none := by
      simp [List.getElem?_set, hdl]
    have hq : q = ptr.null_string ∨
        1 ≤ live_count ⟨m1, st.objs.set dst none⟩ q := by
      by_cases hds : dst = src
      · subst hds
        have hpq : p = q := by rw [hfd] at hfs; exact Option.some.inj hfs
        subst hpq
        cases p with
        | null =>
          have := field_live hfd
          rw [live_not_null h] at this
          omega
        | null_string => exact Or.inl rfl
        | heap a =>
          right
          have h1 := field_live hfd
          have h2 := hself rfl a hfd
          have h3 := count_set_slot hdget none (ptr.heap a)
          simp only [live_count] at h1 h2 ⊢
          simp at h3
          omega
      · right
        have : (⟨m1, st.objs.set dst none⟩ : program_state).field src = some q := by
          rw [field_set_other (m := st.mem) none hds]
          exact hfs
        exact field_live this
    obtain ⟨m2, hinc, hok2⟩ := inc_counts_ok (st.objs.set dst (some q)) hok1 hq
      (by
        have h1 := hle ((st.objs.set dst none).set dst (some q)) q
        have h2 := count_set_slot hslot (some q) q
        simp only [List.length_set, reduceCtorEq, if_false, if_true, Nat.add_zero] at h1 h2
        simp only [live_count]
        omega)
      (by
        intro x
        have := count_set_slot hslot (some q) x
        simpa [List.set_set] using this)
      (by
        intro o ho
        rcases List.mem_iff_getElem?.mp ho with ⟨j, hj⟩
        by_cases hjd : dst = j
        · subst hjd
          rw [List.getElem?_set, if_pos rfl, if_pos hdl] at hj
          exact Or.inr (Option.some.inj hj).symm
        · rw [List.getElem?_set_ne hjd] at hj
          left
          exact List.getElem?_mem (by rw [List.getElem?_set_ne hjd]; exact hj))
    simp only [step, hfd, hfs, assign, hdec, hinc, updated]
    exact ⟨trivial, hok2, by simp [copy_constructions]⟩

theorem copy_constructions_cons (op : string_op) (ops : List string_op) :
    copy_constructions (op :: ops) = copy_constructions [op] + copy_constructions ops := by
  cases op <;> simp [copy_constructions, Nat.add_comm]

theorem copy_constructions_take (ops : List string_op) :
    ∀ k : Nat, copy_constructions (ops.take k) ≤ copy_constructions ops := by
  induction ops with
  | nil => intro k; simp [copy_constructions]
  | cons op ops ih =>
    intro k
    cases k with
    | zero => simp [copy_constructions]
    | succ k =>
      have := ih k
      rw [List.take_succ_cons, copy_constructions_cons op ops,
        copy_constructions_cons op (ops.take k)]
      omega

theorem share_run (ops : List string_op) :
    ∀ st : program_state, counts_ok st → share_admissible ops st →
      st.objs.length + copy_constructions ops < uint32_range →
      (run ops st).fault = none ∧ counts_ok (run ops st).state := by
  induction ops with
  | nil => intro st h _ _; exact ⟨rfl, h⟩
  | cons op ops ih =>
    intro st h hadm hsz
    obtain ⟨hen, hrest⟩ := hadm
    rw [copy_constructions_cons] at hsz
    obtain ⟨hf, hok, hlen⟩ := share_step h hen (by omega)
    simp only [run, hf]
    exact ih _ hok hrest (by omega)

theorem share_admissible_take (ops : List string_op) :
    ∀ (k : Nat) (st : program_state), share_admissible ops st →
      share_admissible (ops.take k) st := by
  induction ops with
  | nil => intro k st h; simpa using h
  | cons op ops ih =>
    intro k st h
    cases k with
    | zero => trivial
    | succ k => exact ⟨h.1, ih k _ h.2⟩

theorem counts_ok_shared (n : Nat) (hn : 1 ≤ n) : counts_ok (shared_state n) := by
  constructor
  · intro a ha
    have ha0 : a = 0 := by
      simp only [shared_state, List.length_singleton] at ha
      omega
    subst ha0
    unfold record_ok release_count live_count
    simp only [shared_state, List.count_replicate_self]
    rw [if_neg (by omega)]
    exact ⟨rfl, rfl⟩
  · intro o ho
    have := List.eq_of_mem_replicate ho
    subst this
    simp [bound_ok, shared_state]

theorem copy_in_shared_state (n : Nat) (hn : 1 ≤ n) :
    run [.copy_construct 0] (shared_state n)
      = ⟨⟨⟨null_string_init, [some ⟨(n + 1) % uint32_range, 2, [104, 105, 0]⟩], [], 50⟩,
          List.replicate n (some (ptr.heap 0)) ++ [some (ptr.heap 0)]⟩, none⟩ := by
  have hf : (shared_state n).field 0 = some (ptr.heap 0) := by
    apply field_of_get
    simp only [shared_state]
    exact List.getElem?_replicate_of_lt (by omega)
  have hr : (shared_state n).mem.read (.heap 0) = .ok ⟨n, 2, [104, 105, 0]⟩ := rfl
  simp only [run, step, hf, copy_construct, inc_ref_ok hr, constructed]
  rfl

/-- With `n` live values sharing the record, where `n + 1` is a multiple of 2^32, one more
copy construction completes and leaves `ref_count == 0` with `n + 1` live values. -/
theorem copy_wraps_count (n : Nat) (hn : 1 ≤ n) (hwrap : (n + 1) % uint32_range = 0) :
    counts_ok (shared_state n) ∧
      (run [.copy_construct 0] (shared_state n)).fault = none ∧
      (run [.copy_construct 0] (shared_state n)).state.mem.read (.heap 0)
        = .ok ⟨0, 2, [104, 105, 0]⟩ ∧
      live_count (run [.copy_construct 0] (shared_state n)).state (.heap 0) = n + 1 ∧
      ¬ record_ok (run [.copy_construct 0] (shared_state n)).state 0 := by
  have hrun := copy_in_shared_state n hn
  rw [hwrap] at hrun
  rw [hrun]
  have hlive : live_count
      ⟨⟨null_string_init, [some ⟨0, 2, [104, 105, 0]⟩], [], 50⟩,
        List.replicate n (some (ptr.heap 0)) ++ [some (ptr.heap 0)]⟩ (.heap 0) = n + 1 := by
    simp only [live_count, List.count_append, List.count_replicate_self,
      List.count_singleton_self]
  refine ⟨counts_ok_shared n hn, rfl, rfl, hlive, ?_⟩
  unfold record_ok
  rw [hlive, if_neg (by omega)]
  intro h
  have h1 := h.1
  simp only [memory.read, List.getElem?_cons_zero, Except.map, Except.ok.injEq] at h1
  omega

end core
